import Mathlib

/-!
Verification development for the Fury Cutter battle-boundary detection
engine.  Pure functions below embed the repository's code: the
generation-keyed OCR-method selection and percentile preprocessing are
taken from the fixed `_get_ocr_text_at_frame` shown in the rival-detection
fix note; the rival regular expressions are taken from the version-update
summary; the Premiere label layer (`processBattle`, `selectClipAtTime`,
`exportForPython`) is taken from the ExtendScript sources.  Components of
`fury_cutter.py` whose code is not in the repository snapshot (the
transition/boundary searches, the frame classifier, the sampling driver)
are modelled from the specification and the repository's design notes, as
marked in each doc comment.
-/

set_option autoImplicit false

namespace FuryCutter

/-- The game generations supported by the tool (`Generation` enum:
GEN1 = 1 .. GEN5 = 5). -/
inductive Generation where
  | gen1
  | gen2
  | gen3
  | gen4
  | gen5
deriving DecidableEq, Repr

/-- The textual pattern family a generation's battle header uses
(`ocr_pattern`): "team"-style headers or "leader"-style headers. -/
inductive OcrPatternFamily where
  | team
  | leader
deriving DecidableEq, Repr

/-- Preprocessing mode applied to the OCR crop before recognition. -/
inductive PreprocessingMode where
  | raw
  | percentile_threshold
deriving DecidableEq, Repr

/-- Recognition mode handed to the text-recognition capability:
`block` is PSM 6 (uniform block), `line` is PSM 7 (single line). -/
inductive RecognitionMode where
  | block
  | line
deriving DecidableEq, Repr

/-- A game configuration as far as OCR-method selection is concerned:
its generation tag and the pattern family it happens to use
(`self.game_config.generation` / `ocr_pattern`). -/
structure GameConfig where
  generation : Generation
  ocr_pattern : OcrPatternFamily
deriving DecidableEq, Repr

/-- One BGR pixel of the OCR crop. -/
structure PixelBGR where
  b : ℕ
  g : ℕ
  r : ℕ
deriving DecidableEq, Repr

/-- Embeds `cv2.cvtColor(ocr_crop, cv2.COLOR_BGR2GRAY)` on one pixel:
Y = 0.299 R + 0.587 G + 0.114 B, rounded to the nearest integer. -/
def grayOfPixel (p : PixelBGR) : ℕ :=
  (round ((299 * p.r + 587 * p.g + 114 * p.b : ℚ) / 1000)).toNat

/-- Grayscale conversion of the whole crop. -/
def grayOfCrop (crop : List PixelBGR) : List ℕ :=
  crop.map grayOfPixel

/-- Insert into a sorted list (ascending). -/
def insertSorted (x : ℕ) : List ℕ → List ℕ
  | [] => [x]
  | y :: ys => if x ≤ y then x :: y :: ys else y :: insertSorted x ys

/-- Insertion sort, ascending. -/
def sortNat : List ℕ → List ℕ
  | [] => []
  | x :: xs => insertSorted x (sortNat xs)

/-- Embeds `np.percentile(gray, 20)` with the default linear interpolation:
sort the samples, let pos = (n-1)·20/100, and interpolate between the
two neighbouring order statistics. -/
def percentile20 (xs : List ℕ) : ℚ :=
  let sorted := sortNat xs
  if xs.length = 0 then 0
  else
    let i : ℕ := (xs.length - 1) / 5
    let pos : ℚ := (xs.length - 1 : ℕ) / 5
    let lo : ℚ := (sorted.getD i 0 : ℕ)
    let hi : ℚ := (sorted.getD (i + 1) (sorted.getD i 0) : ℕ)
    lo + (pos - i) * (hi - lo)

/-- Embeds `cv2.threshold(gray, threshold_value, 255, cv2.THRESH_BINARY_INV)`:
a pixel strictly above the threshold becomes 0, any other pixel becomes
255. -/
def thresholdBinaryInv (thresh : ℚ) (xs : List ℕ) : List ℕ :=
  xs.map (fun p => if thresh < (p : ℚ) then 0 else 255)

/-- Embeds `processed = 255 - binary`. -/
def invert255 (xs : List ℕ) : List ℕ :=
  xs.map (fun p => 255 - p)

/-- The percentile-threshold preprocessing pipeline of
`_get_ocr_text_at_frame`: threshold the grayscale crop at its own 20th
percentile and invert, leaving dark text on a light background. -/
def preprocessPercentile (gray : List ℕ) : List ℕ :=
  invert255 (thresholdBinaryInv (percentile20 gray) gray)

/-- An image as handed to the text-recognition capability: either the
untouched colour crop (raw path) or a single-channel processed image. -/
inductive OcrImage where
  | color (pixels : List PixelBGR)
  | mono (pixels : List ℕ)
deriving DecidableEq, Repr

/-- What the extractor sends to recognition: preprocessing mode used,
recognition mode, and the image. -/
structure OcrRequest where
  preproc : PreprocessingMode
  mode : RecognitionMode
  image : OcrImage
deriving DecidableEq, Repr

/-- Embeds the fixed `_get_ocr_text_at_frame` OCR-method selection:
`if generation in [GEN1, GEN2, GEN3, GEN4]` use percentile preprocessing
with PSM 7 (single line), otherwise (Gen5) raw OCR with PSM 6 (block). -/
def getOcrRequest (cfg : GameConfig) (crop : List PixelBGR) : OcrRequest :=
  if cfg.generation ∈ [Generation.gen1, Generation.gen2, Generation.gen3, Generation.gen4] then
    { preproc := .percentile_threshold
      mode := .line
      image := .mono (preprocessPercentile (grayOfCrop crop)) }
  else
    { preproc := .raw
      mode := .block
      image := .color crop }

/-- The (preprocessing, recognition) pair chosen for a configuration. -/
def ocrMethodFor (cfg : GameConfig) : PreprocessingMode × RecognitionMode :=
  ((getOcrRequest cfg []).preproc, (getOcrRequest cfg []).mode)

/-! ### Trainer pattern matching

The rival patterns embed the `rival_patterns` list of the version-update
summary verbatim; the named "team" patterns and the Lance/Champion alias
embed the Crystal trainer registry described there.  Regular-expression
pieces (`\b`, `\s*`, `\s+`, `\d+`, `['’]?`) are realised as explicit
consumers over a character list; for these patterns greedy matching
without backtracking coincides with regex semantics because no starred
class overlaps the literal that follows it. -/

/-- Straight apostrophe. -/
def apos : Char := Char.ofNat 39

/-- Curly apostrophe U+2019. -/
def curlyApos : Char := Char.ofNat 8217

/-- The class `\w` (word character): letters, digits, underscore. -/
def isWordChar (c : Char) : Bool :=
  c.isAlphanum || c = Char.ofNat 95

/-- The class `\s` (whitespace). -/
def isSpaceChar (c : Char) : Bool :=
  c = ' ' || c = Char.ofNat 9 || c = Char.ofNat 10 || c = Char.ofNat 13

/-- The character class `['’]`. -/
def isAposChar (c : Char) : Bool :=
  c = apos || c = curlyApos

/-- Consume a literal string at the head of the input. -/
def eatLit : List Char → List Char → Option (List Char)
  | [], s => some s
  | _ :: _, [] => none
  | c :: cs, d :: s => if d = c then eatLit cs s else none

/-- The piece `\s*`: drop leading whitespace. -/
def eatSpaces0 : List Char → List Char
  | [] => []
  | c :: s => if isSpaceChar c then eatSpaces0 s else c :: s

/-- The piece `\s+`: at least one whitespace character. -/
def eatSpaces1 : List Char → Option (List Char)
  | [] => none
  | c :: s => if isSpaceChar c then some (eatSpaces0 s) else none

/-- Accumulate the remaining digits of `\d+`. -/
def eatDigitsAux : ℕ → List Char → ℕ × List Char
  | acc, [] => (acc, [])
  | acc, c :: s =>
    if c.isDigit then eatDigitsAux (acc * 10 + (c.toNat - 48)) s else (acc, c :: s)

/-- The piece `\d+`: at least one digit, returning its numeric value. -/
def eatDigits1 : List Char → Option (ℕ × List Char)
  | [] => none
  | c :: s => if c.isDigit then some (eatDigitsAux (c.toNat - 48) s) else none

/-- The piece `['’]?`: optionally consume one apostrophe. -/
def eatOptApos : List Char → List Char
  | [] => []
  | c :: s => if isAposChar c then s else c :: s

/-- The common pattern tail `['’]?s\s+team`. -/
def teamTail (s : List Char) : Option (List Char) :=
  match eatLit [Char.ofNat 115] (eatOptApos s) with
  | none => none
  | some s1 =>
    match eatSpaces1 s1 with
    | none => none
    | some s2 => eatLit [Char.ofNat 116, Char.ofNat 101, Char.ofNat 97, Char.ofNat 109] s2

/-- The body of `\brival\s*\d+['’]?s\s+team` at one position,
returning the rival number. -/
def rivalNumberedAt (s : List Char) : Option ℕ :=
  match eatLit ("rival".data) s with
  | none => none
  | some s1 =>
    match eatDigits1 (eatSpaces0 s1) with
    | none => none
    | some (n, s2) => (teamTail s2).map (fun _ => n)

/-- The body of `\brival['’]?s\s+team` at one position. -/
def rivalPlainAt (s : List Char) : Option Unit :=
  match eatLit ("rival".data) s with
  | none => none
  | some s1 => (teamTail s1).map (fun _ => ())

/-- The body of `\brivalt['’]?s\s+team` at one position (OCR misread
of "rival" as "rivalt"). -/
def rivaltAt (s : List Char) : Option Unit :=
  match eatLit ("rivalt".data) s with
  | none => none
  | some s1 => (teamTail s1).map (fun _ => ())

/-- Embeds `re.search` of a word-boundary-anchored pattern: try the pattern body
at every position whose predecessor is not a word character (`bdry` says
whether the current position is such a boundary). -/
def searchFrom {α : Type} (patAt : List Char → Option α) : Bool → List Char → Option α
  | bdry, [] => if bdry then patAt [] else none
  | bdry, c :: rest =>
    match (if bdry then patAt (c :: rest) else none) with
    | some v => some v
    | none => searchFrom patAt (!isWordChar c) rest

/-- Search a whole text; the start of the string is a boundary. -/
def searchPat {α : Type} (patAt : List Char → Option α) (s : List Char) : Option α :=
  searchFrom patAt true s

/-- A canonical trainer identity: a rival (optionally numbered) or a
named trainer. -/
inductive TrainerIdentity where
  | rival (n : Option ℕ)
  | named (name : List Char)
deriving DecidableEq, Repr

/-- The rival matcher: the three `rival_patterns` tried in list order;
the numbered variant resolves to the numbered rival, the plain and
misread variants to the unnumbered rival identity. -/
def matchRival (s : List Char) : Option TrainerIdentity :=
  match searchPat rivalNumberedAt s with
  | some n => some (.rival (some n))
  | none =>
    match searchPat rivalPlainAt s with
    | some _ => some (.rival none)
    | none =>
      match searchPat rivaltAt s with
      | some _ => some (.rival none)
      | none => none

/-- A named "team"-style pattern `\bNAME['’]?s\s+team` at one
position. -/
def namedTeamAt (name : List Char) (s : List Char) : Option Unit :=
  match eatLit name s with
  | none => none
  | some s1 => (teamTail s1).map (fun _ => ())

/-- Modelled from the spec: the registered named-trainer patterns for
Crystal, tried in order; each pattern carries the canonical identity it
resolves to.  Lance is registered twice — under his own name and under
the "champion" spelling — both mapping to the same identity, because
Lance is the Champion in Crystal. -/
def crystalRegistry : List (List Char × TrainerIdentity) :=
  [ ("falkner".data, .named "falkner".data)
  , ("bugsy".data, .named "bugsy".data)
  , ("whitney".data, .named "whitney".data)
  , ("morty".data, .named "morty".data)
  , ("chuck".data, .named "chuck".data)
  , ("pryce".data, .named "pryce".data)
  , ("jasmine".data, .named "jasmine".data)
  , ("clair".data, .named "clair".data)
  , ("will".data, .named "will".data)
  , ("koga".data, .named "koga".data)
  , ("bruno".data, .named "bruno".data)
  , ("karen".data, .named "karen".data)
  , ("lance".data, .named "lance".data)
  , ("champion".data, .named "lance".data)
  , ("red".data, .named "red".data)
  , ("brock".data, .named "brock".data)
  , ("misty".data, .named "misty".data)
  , ("lt. surge".data, .named "lt. surge".data)
  , ("janine".data, .named "janine".data)
  , ("erika".data, .named "erika".data)
  , ("blaine".data, .named "blaine".data)
  , ("sabrina".data, .named "sabrina".data)
  , ("blue".data, .named "blue".data) ]

/-- Try the registered named patterns in order. -/
def matchNamed (reg : List (List Char × TrainerIdentity)) (s : List Char) : Option TrainerIdentity :=
  match reg with
  | [] => none
  | (nm, tid) :: rest =>
    match searchPat (namedTeamAt nm) s with
    | some _ => some tid
    | none => matchNamed rest s

/-- Modelled from the spec: `TrainerMatcher.match` over normalized text —
rival patterns first, then the named registry; returns `none` when no
registered pattern matches. -/
def matchTrainer (reg : List (List Char × TrainerIdentity)) (s : List Char) : Option TrainerIdentity :=
  match matchRival s with
  | some tid => some tid
  | none => matchNamed reg s

/-! ### Frame classification -/

/-- Classification of a gameplay crop. -/
inductive FrameClass where
  | black
  | white
  | neither
deriving DecidableEq, Repr

/-- Mean pixel intensity of a crop (0 for an empty crop). -/
def meanIntensity (crop : List ℕ) : ℚ :=
  (crop.sum : ℚ) / (crop.length : ℚ)

/-- Modelled from the spec: `TransitionFrameScanner.classify` — mean
intensity at most 5 is black, at least 250 is white, anything else is
neither (thresholds fixed, as exercised by the black/white detection
tests in the version-update summary). -/
def classifyCrop (crop : List ℕ) : FrameClass :=
  if meanIntensity crop ≤ 5 then .black
  else if 250 ≤ meanIntensity crop then .white
  else .neither

/-! ### Boundary refinement (binary search)

Modelled from the spec: the REFINING state of
`BoundarySearch.find_text_boundary` binary-searches the open interval
between the last matching frame and the first non-matching frame. -/

/-- The halving loop of the binary search, structurally recursive on a
step budget that dominates the interval width.  Each step probes the
midpoint and keeps the half whose endpoints still straddle the
transition. -/
def refineAux (m : ℕ → Bool) : ℕ → ℕ → ℕ → ℕ × List ℕ
  | 0, _, hi => (hi, [])
  | fuel + 1, lo, hi =>
    if hi - lo ≤ 1 then (hi, [])
    else
      if m ((lo + hi) / 2) then
        ((refineAux m fuel ((lo + hi) / 2) hi).1,
          (lo + hi) / 2 :: (refineAux m fuel ((lo + hi) / 2) hi).2)
      else
        ((refineAux m fuel lo ((lo + hi) / 2)).1,
          (lo + hi) / 2 :: (refineAux m fuel lo ((lo + hi) / 2)).2)

/-- Modelled from the spec: binary-search refinement.  `m lo = true` and
`m hi = false` on entry; returns the boundary frame (the first frame at
which the match is absent) together with the list of frames probed by
OCR. -/
def refineBoundary (m : ℕ → Bool) (lo hi : ℕ) : ℕ × List ℕ :=
  refineAux m (hi - lo) lo hi

/-! ### Transition search (cut-out) -/

/-- First probed frame classifying as black or white. -/
def firstBW (c : ℕ → FrameClass) (probes : List ℕ) : Option ℕ :=
  probes.find? (fun f => c f ≠ FrameClass.neither)

/-- Phase 1 probe window: `jump` frames forward from the text boundary. -/
def probesPhase1 (t jump : ℕ) : List ℕ :=
  (List.range (jump + 1)).map (fun k => t + k)

/-- Phase 2 probe window: extended to `2 × jump` frames forward. -/
def probesPhase2 (t jump : ℕ) : List ℕ :=
  (List.range (2 * jump + 1)).map (fun k => t + k)

/-- Phase 3 fine sweep: steps of 5 frames over 30 seconds (7200 frames
at 240 fps) forward from the detection point, clamped to the recording
end. -/
def probesFine (d recEnd : ℕ) : List ℕ :=
  ((List.range (7200 / 5 + 1)).map (fun k => d + 5 * k)).filter (fun f => f ≤ recEnd)

/-- Phase 3 coarse sweep: steps of 10 frames over 2 minutes (28800
frames at 240 fps) forward from the detection point, clamped to the
recording end. -/
def probesCoarse (d recEnd : ℕ) : List ℕ :=
  ((List.range (28800 / 10 + 1)).map (fun k => d + 10 * k)).filter (fun f => f ≤ recEnd)

/-- Modelled from the spec: `TransitionSearch.find_transition` for the
cut-out direction — bounded window from the text boundary `t`, then the
window extended to `2 × jump`, then the fallback linear sweep (fine then
coarse) from the detection point `d`, and finally clamping the cut point
to the last frame of the recording. -/
def findTransitionOut (c : ℕ → FrameClass) (t d jump recEnd : ℕ) : ℕ :=
  match firstBW c (probesPhase1 t jump) with
  | some f => f
  | none =>
    match firstBW c (probesPhase2 t jump) with
    | some f => f
    | none =>
      match firstBW c (probesFine d recEnd) with
      | some f => f
      | none =>
        match firstBW c (probesCoarse d recEnd) with
        | some f => f
        | none => recEnd

/-- Cut-in probe window: `jump` frames backward from the text boundary
(closest transition first), clamped at frame 0. -/
def probesBack (t jump : ℕ) : List ℕ :=
  ((List.range (jump + 1)).map (fun k => t - k)).filter (fun f => t - jump ≤ f)

/-- Modelled from the spec: `TransitionSearch.find_transition` for the
cut-in direction — scan backward from the text boundary, preferring the
transition closest to the battle; clamp to the recording start when
nothing is found. -/
def findTransitionIn (c : ℕ → FrameClass) (t jump : ℕ) : ℕ :=
  match firstBW c (probesBack t jump) with
  | some f => f
  | none => 0

/-! ### Sampling walks and the composed engine -/

/-- Modelled from the spec: the SAMPLING state walking forward — step by
`jump` from the current matching frame while the trainer text still
matches; stop at the first non-matching sample, recording the last
matching frame (`inside`) and the first non-matching frame (`outside`).
`fuel` is the caller-supplied maximum number of jumps. -/
def sampleOut (m : ℕ → Bool) (jump : ℕ) : ℕ → ℕ → Option (ℕ × ℕ)
  | 0, _ => none
  | fuel + 1, cur =>
    if m (cur + jump) then sampleOut m jump fuel (cur + jump)
    else some (cur, cur + jump)

/-- Modelled from the spec: the SAMPLING state walking backward (cut-in
direction); stops when the match disappears, or fails when the walk
would run past the start of the recording or out of fuel. -/
def sampleIn (m : ℕ → Bool) (jump : ℕ) : ℕ → ℕ → Option (ℕ × ℕ)
  | 0, _ => none
  | fuel + 1, cur =>
    if jump ≤ cur then
      if m (cur - jump) then sampleIn m jump fuel (cur - jump)
      else some (cur, cur - jump)
    else none

/-- A committed battle segment. -/
structure Segment where
  cut_in : ℕ
  text_before : ℕ
  detect : ℕ
  text_after : ℕ
  cut_out : ℕ
deriving DecidableEq, Repr

/-- Modelled from the spec: the composed engine for one battle — from a
detection frame `d`, find the backward text edge (sampling walk + binary
refinement), the forward text edge, and convert each into a transition
frame.  The backward refinement runs the same binary search on the
negated match, yielding the first matching frame of the text span; the
frame before it is the first frame (searching backward) where the text
is no longer visible. -/
def processBattleEngine (m : ℕ → Bool) (c : ℕ → FrameClass)
    (d jump recEnd fuel : ℕ) : Option Segment :=
  match sampleIn m jump fuel d with
  | none => none
  | some (insideB, outsideB) =>
    let spanStart := (refineBoundary (fun f => !m f) outsideB insideB).1
    let textBefore := spanStart - 1
    match sampleOut m jump fuel d with
    | none => none
    | some (insideA, outsideA) =>
      let textAfter := (refineBoundary m insideA outsideA).1
      some { cut_in := findTransitionIn c textBefore jump
             text_before := textBefore
             detect := d
             text_after := textAfter
             cut_out := findTransitionOut c textAfter d jump recEnd }

/-! ### The sampling driver -/

/-- Modelled from the spec: the driver sampling frames for battle
detection — one OCR probe per listed frame, collecting the frames whose
text matches a registered pattern together with the matched identity,
and also returning the trace of frames actually probed.  A recognition
miss is skipped and the scan continues. -/
def scanForBattles (reg : List (List Char × TrainerIdentity)) (ocr : ℕ → List Char) :
    List ℕ → List (ℕ × TrainerIdentity) × List ℕ
  | [] => ([], [])
  | f :: rest =>
    let r := scanForBattles reg ocr rest
    match matchTrainer reg (ocr f) with
    | none => (r.1, f :: r.2)
    | some tid => ((f, tid) :: r.1, f :: r.2)

/-! ### Premiere label layer (embedded from the ExtendScript sources) -/

/-- Embeds `secondsToTicks(seconds)`: one second is 254016000000 ticks. -/
def secondsToTicks (s : ℚ) : ℚ :=
  s * 254016000000

/-- Embeds `OFFSET_SECONDS`: offset to jump into the clip, 0.5 seconds. -/
def OFFSET_SECONDS : ℚ :=
  1 / 2

/-- A timeline clip, by its tick interval. -/
structure Clip where
  start_ticks : ℚ
  end_ticks : ℚ
deriving DecidableEq, Repr

/-- Whether a clip covers a tick position: `clip.start.ticks <= ticks
&& clip.end.ticks > ticks`. -/
def clipCovers (clip : Clip) (ticks : ℚ) : Bool :=
  decide (clip.start_ticks ≤ ticks) && decide (ticks < clip.end_ticks)

/-- Embeds `selectClipAtTime` / `processBattle`: move the playhead to
`seconds + OFFSET_SECONDS`, then select the first clip (in track order)
whose tick interval covers that position. -/
def selectClipAtTime (clips : List Clip) (seconds : ℚ) : Option Clip :=
  clips.find? (fun clip => clipCovers clip (secondsToTicks (seconds + OFFSET_SECONDS)))

/-- One label entry handed to the label-application layer. -/
structure LabelEntry where
  start_seconds : ℚ
  label : String
  trainer : String
deriving DecidableEq, Repr

/-- One clip entry of the file exported for the Python helper. -/
structure ExportedClip where
  start_seconds : ℚ
  label : String
  trainer : String
deriving DecidableEq, Repr

/-- Embeds `exportForPython`: each exported clip entry stores
`entry.start_seconds + OFFSET_SECONDS`. -/
def exportForPython (labels : List LabelEntry) : List ExportedClip :=
  labels.map (fun e =>
    { start_seconds := e.start_seconds + OFFSET_SECONDS
      label := e.label
      trainer := e.trainer })

/-- The advertised `start_seconds` of a battle segment:
`cut_in_frame / frame_rate`. -/
def startSecondsOf (cutInFrame : ℕ) (frameRate : ℚ) : ℚ :=
  (cutInFrame : ℚ) / frameRate

/-! ## Theorems -/

/-- C1: the extractor's choice of preprocessing is a function of the
generation tag alone — configurations with equal generations produce
identical OCR requests on every crop; Gen1 through Gen4 select
percentile-threshold preprocessing with line-mode recognition and Gen5
selects raw mode with block-mode recognition; and two configurations
sharing the "team" pattern family but differing in generation (Gen2
vs Gen5) get different preprocessing. -/
theorem preprocessing_keyed_on_generation :
    (∀ (c₁ c₂ : GameConfig) (crop : List PixelBGR), c₁.generation = c₂.generation →
        getOcrRequest c₁ crop = getOcrRequest c₂ crop)
    ∧ (∀ cfg : GameConfig,
        cfg.generation ∈ [Generation.gen1, Generation.gen2, Generation.gen3, Generation.gen4] →
        ocrMethodFor cfg = (PreprocessingMode.percentile_threshold, RecognitionMode.line))
    ∧ (∀ cfg : GameConfig, cfg.generation = Generation.gen5 →
        ocrMethodFor cfg = (PreprocessingMode.raw, RecognitionMode.block))
    ∧ (∀ c₁ c₂ : GameConfig, c₁.ocr_pattern = OcrPatternFamily.team →
        c₂.ocr_pattern = OcrPatternFamily.team →
        c₁.generation = Generation.gen2 → c₂.generation = Generation.gen5 →
        (ocrMethodFor c₁).1 ≠ (ocrMethodFor c₂).1) := by
  refine ⟨?_, ?_, ?_, ?_⟩
  · intro c₁ c₂ crop h
    unfold getOcrRequest
    rw [h]
  · intro cfg h
    obtain ⟨g, p⟩ := cfg
    cases g <;> simp_all [ocrMethodFor, getOcrRequest]
  · intro cfg h
    obtain ⟨g, p⟩ := cfg
    cases g <;> simp_all [ocrMethodFor, getOcrRequest]
  · intro c₁ c₂ hp1 hp2 hg1 hg2
    obtain ⟨g1, p1⟩ := c₁
    obtain ⟨g2, p2⟩ := c₂
    simp_all [ocrMethodFor, getOcrRequest]

/-- Witness for C1 at concrete configurations: a Gen2 "team" profile and
a Gen5 "team" profile receive different preprocessing. -/
theorem preprocessing_keyed_on_generation_witness :
    (ocrMethodFor { generation := Generation.gen2, ocr_pattern := OcrPatternFamily.team }).1
      ≠ (ocrMethodFor { generation := Generation.gen5, ocr_pattern := OcrPatternFamily.team }).1 :=
  preprocessing_keyed_on_generation.2.2.2
    { generation := Generation.gen2, ocr_pattern := OcrPatternFamily.team }
    { generation := Generation.gen5, ocr_pattern := OcrPatternFamily.team }
    rfl rfl rfl rfl

/-- C4: the classifier returns black exactly when the mean intensity of
the crop is at most 5, white exactly when it is at least 250, and
neither otherwise; in particular a mean of exactly 5 is black, exactly
250 is white, and 128 is neither. -/
theorem classify_transition_thresholds :
    (∀ crop : List ℕ,
      (classifyCrop crop = FrameClass.black ↔ meanIntensity crop ≤ 5)
      ∧ (classifyCrop crop = FrameClass.white ↔ 250 ≤ meanIntensity crop)
      ∧ (classifyCrop crop = FrameClass.neither ↔
          (5 < meanIntensity crop ∧ meanIntensity crop < 250)))
    ∧ classifyCrop [5] = FrameClass.black
    ∧ classifyCrop [250] = FrameClass.white
    ∧ classifyCrop [128] = FrameClass.neither := by
  refine ⟨?_, by norm_num [classifyCrop, meanIntensity],
    by norm_num [classifyCrop, meanIntensity], by norm_num [classifyCrop, meanIntensity]⟩
  intro crop
  unfold classifyCrop
  split_ifs with h1 h2
  · refine ⟨⟨fun _ => h1, fun _ => rfl⟩, ⟨fun hh => ?_, fun hh => ?_⟩,
      ⟨fun hh => ?_, fun hh => ?_⟩⟩
    · exact hh.elim
    · exact absurd h1 (by linarith)
    · exact hh.elim
    · obtain ⟨hh1, _⟩ := hh
      exact absurd h1 (by linarith)
  · refine ⟨⟨fun hh => ?_, fun hh => ?_⟩, ⟨fun _ => h2, fun _ => rfl⟩,
      ⟨fun hh => ?_, fun hh => ?_⟩⟩
    · exact hh.elim
    · exact absurd hh h1
    · exact hh.elim
    · obtain ⟨_, hh2⟩ := hh
      exact absurd h2 (by linarith)
  · push_neg at h1 h2
    refine ⟨⟨fun hh => ?_, fun hh => ?_⟩, ⟨fun hh => ?_, fun hh => ?_⟩,
      ⟨fun _ => ⟨h1, h2⟩, fun _ => rfl⟩⟩
    · exact hh.elim
    · exact absurd hh (not_le.mpr h1)
    · exact hh.elim
    · exact absurd hh (not_le.mpr h2)

/-- C7: the matcher resolves both registered spellings for the Crystal
champion — "lance's team" and "champion's team" (with straight or curly
apostrophe) — to the same canonical Lance identity, never to two
distinct identities. -/
theorem lance_champion_single_identity :
    matchTrainer crystalRegistry ("lance".data ++ [apos] ++ "s team".data)
        = some (TrainerIdentity.named "lance".data)
    ∧ matchTrainer crystalRegistry ("champion".data ++ [apos] ++ "s team".data)
        = some (TrainerIdentity.named "lance".data)
    ∧ matchTrainer crystalRegistry ("champion".data ++ [curlyApos] ++ "s team".data)
        = some (TrainerIdentity.named "lance".data)
    ∧ matchTrainer crystalRegistry ("lance".data ++ [apos] ++ "s team".data)
        = matchTrainer crystalRegistry ("champion".data ++ [apos] ++ "s team".data) := by
  exact ⟨by decide, by decide, by decide, by decide⟩

/-- A successful anchored search decomposes the text so that the pattern
body fires on a suffix whose preceding character, if any, is not a word
character — the `\b` anchoring of the registered patterns. -/
theorem searchFrom_boundary {α : Type} (patAt : List Char → Option α) :
    ∀ (s : List Char) (bdry : Bool) (v : α), searchFrom patAt bdry s = some v →
      ∃ pre suf, s = pre ++ suf ∧ patAt suf = some v ∧
        (pre = [] → bdry = true) ∧
        (∀ ch, pre.getLast? = some ch → isWordChar ch = false) := by
  intro s
  induction s with
  | nil =>
    intro bdry v h
    unfold searchFrom at h
    cases bdry with
    | false => simp at h
    | true =>
      simp only [if_pos] at h
      exact ⟨[], [], rfl, h, fun _ => rfl, fun ch hch => by cases hch⟩
  | cons c rest ih =>
    intro bdry v h
    unfold searchFrom at h
    cases hcase : (if bdry then patAt (c :: rest) else none) with
    | some v' =>
      rw [hcase] at h
      cases h
      cases bdry with
      | false => simp at hcase
      | true =>
        simp only [if_pos] at hcase
        exact ⟨[], c :: rest, rfl, hcase, fun _ => rfl, fun ch hch => by cases hch⟩
    | none =>
      rw [hcase] at h
      obtain ⟨pre', suf', hsplit, hpat, hpre, hlast⟩ := ih (!isWordChar c) v h
      refine ⟨c :: pre', suf', ?_, hpat, ?_, ?_⟩
      · rw [hsplit]
        rfl
      · intro hne
        exact absurd hne (List.cons_ne_nil c pre')
      intro ch hch
      cases pre' with
      | nil =>
        simp only [List.getLast?_singleton, Option.some.injEq] at hch
        subst hch
        have := hpre rfl
        simpa using this
      | cons p ps =>
        rw [List.getLast?_cons_cons] at hch
        exact hlast ch hch

/-- C5: each registered rival spelling — "rival's team", "rival 2's
team", "rival2's team", "rivals team" (missing apostrophe), "rival 5s
team", and the misread "rivalt's team" — resolves to the Rival identity
family with the correct number for numbered variants; the patterns are
word-boundary anchored, so a name occurring only as the tail of a longer
word ("arrivals team") does not match, and any successful anchored
search sits at a non-word-character boundary. -/
theorem rival_patterns_resolve :
    matchTrainer crystalRegistry ("rival".data ++ [apos] ++ "s team".data)
        = some (TrainerIdentity.rival none)
    ∧ matchTrainer crystalRegistry ("rival 2".data ++ [apos] ++ "s team".data)
        = some (TrainerIdentity.rival (some 2))
    ∧ matchTrainer crystalRegistry ("rival2".data ++ [apos] ++ "s team".data)
        = some (TrainerIdentity.rival (some 2))
    ∧ matchTrainer crystalRegistry "rivals team".data = some (TrainerIdentity.rival none)
    ∧ matchTrainer crystalRegistry ("rivalt".data ++ [apos] ++ "s team".data)
        = some (TrainerIdentity.rival none)
    ∧ matchTrainer crystalRegistry "rival 5s team".data = some (TrainerIdentity.rival (some 5))
    ∧ matchTrainer crystalRegistry "arrivals team".data = none
    ∧ (∀ (bdry : Bool) (s : List Char) (n : ℕ),
        searchFrom rivalNumberedAt bdry s = some n →
        ∃ pre suf, s = pre ++ suf ∧ rivalNumberedAt suf = some n ∧
          (pre = [] → bdry = true) ∧
          (∀ ch, pre.getLast? = some ch → isWordChar ch = false)) :=
  ⟨by decide, by decide, by decide, by decide, by decide, by decide, by decide,
    fun bdry s n => searchFrom_boundary rivalNumberedAt s bdry n⟩

/-- Witness for C5: the word-boundary decomposition applied to a
concrete text in which the numbered rival pattern fires after a
non-word character. -/
theorem rival_patterns_resolve_witness :
    ∃ pre suf, "x rival2s team".data = pre ++ suf ∧ rivalNumberedAt suf = some 2 ∧
      (pre = [] → true = true) ∧
      (∀ ch, pre.getLast? = some ch → isWordChar ch = false) :=
  rival_patterns_resolve.2.2.2.2.2.2.2 true "x rival2s team".data 2 (by decide)

/-- C9: OCR text matching no registered pattern yields `none` from the
matcher (it is a total function, not an error); the sampling driver
treats a miss as "no battle present" — the frame contributes no
detection and the scan continues with the remaining frames — and the
probe trace of the scan is exactly the listed frames, so no frame is
re-probed after a miss. -/
theorem recognition_miss_is_not_an_error :
    matchTrainer crystalRegistry "asdf garbage 123".data = none
    ∧ matchTrainer crystalRegistry [] = none
    ∧ (∀ (reg : List (List Char × TrainerIdentity)) (ocr : ℕ → List Char) (f : ℕ)
        (rest : List ℕ), matchTrainer reg (ocr f) = none →
        (scanForBattles reg ocr (f :: rest)).1 = (scanForBattles reg ocr rest).1
        ∧ (scanForBattles reg ocr (f :: rest)).2 = f :: (scanForBattles reg ocr rest).2)
    ∧ (∀ (reg : List (List Char × TrainerIdentity)) (ocr : ℕ → List Char) (frames : List ℕ),
        (scanForBattles reg ocr frames).2 = frames) := by
  refine ⟨by decide, by decide, ?_, ?_⟩
  · intro reg ocr f rest h
    simp [scanForBattles, h]
  · intro reg ocr frames
    induction frames with
    | nil => rfl
    | cons f rest ih =>
      simp only [scanForBattles]
      cases hm : matchTrainer reg (ocr f) <;> simp [hm, ih]

/-- Witness for C9: a concrete sampling run in which the first frame
reads as garbage, is skipped, and is probed exactly once. -/
theorem recognition_miss_is_not_an_error_witness :
    (scanForBattles crystalRegistry (fun _ => "asdf garbage 123".data) (0 :: [1])).1
      = (scanForBattles crystalRegistry (fun _ => "asdf garbage 123".data) [1]).1
    ∧ (scanForBattles crystalRegistry (fun _ => "asdf garbage 123".data) (0 :: [1])).2
      = 0 :: (scanForBattles crystalRegistry (fun _ => "asdf garbage 123".data) [1]).2 :=
  recognition_miss_is_not_an_error.2.2.1 crystalRegistry
    (fun _ => "asdf garbage 123".data) 0 [1] (by decide)

/-- C10: the label layer targets `start_seconds + OFFSET_SECONDS` with
`OFFSET_SECONDS = 0.5`: any clip selected for a label covers that target
in ticks; no clip is selected exactly when no clip's tick interval
satisfies `start.ticks ≤ target < end.ticks`; and the file exported for
the Python helper stores `start_seconds + 0.5` for every entry, not the
raw cut-in time. -/
theorem label_layer_offset_selection :
    OFFSET_SECONDS = 1 / 2
    ∧ (∀ (clips : List Clip) (s : ℚ) (clip : Clip),
        selectClipAtTime clips s = some clip →
        clip.start_ticks ≤ secondsToTicks (s + OFFSET_SECONDS)
        ∧ secondsToTicks (s + OFFSET_SECONDS) < clip.end_ticks)
    ∧ (∀ (clips : List Clip) (s : ℚ),
        selectClipAtTime clips s = none ↔
        ∀ clip ∈ clips, clipCovers clip (secondsToTicks (s + OFFSET_SECONDS)) = false)
    ∧ (∀ labels : List LabelEntry,
        (exportForPython labels).map ExportedClip.start_seconds
          = labels.map (fun e => e.start_seconds + OFFSET_SECONDS)) := by
  refine ⟨rfl, ?_, ?_, ?_⟩
  · intro clips s clip h
    unfold selectClipAtTime at h
    have hp := List.find?_some h
    simpa [clipCovers] using hp
  · intro clips s
    simp [selectClipAtTime, List.find?_eq_none]
  · intro labels
    simp [exportForPython]

/-- Witness for C10: the clip spanning [0 s, 1 s) is selected for an
entry advertising `start_seconds = 0`, because it covers 0.5 s. -/
theorem label_layer_offset_selection_witness :
    (Clip.mk 0 254016000000).start_ticks ≤ secondsToTicks (0 + OFFSET_SECONDS)
    ∧ secondsToTicks (0 + OFFSET_SECONDS) < (Clip.mk 0 254016000000).end_ticks :=
  label_layer_offset_selection.2.1 [Clip.mk 0 254016000000] 0 (Clip.mk 0 254016000000)
    (by norm_num [selectClipAtTime, clipCovers, secondsToTicks, OFFSET_SECONDS, List.find?])

/-- C8: for every crop taking the percentile-threshold path, the
extractor sends recognition exactly the inverted binarization of the
grayscale crop thresholded at its own 20th percentile, in single-line
mode; pixel-wise the processed image is dark (0) exactly on the pixels
at or below the threshold — the foreground text — and light (255) on the
rest; and the 20th percentile interpolates the sorted intensities. -/
theorem percentile_threshold_pipeline :
    (∀ (cfg : GameConfig) (crop : List PixelBGR),
        (getOcrRequest cfg crop).preproc = PreprocessingMode.percentile_threshold →
        getOcrRequest cfg crop =
          { preproc := PreprocessingMode.percentile_threshold
            mode := RecognitionMode.line
            image := OcrImage.mono (invert255 (thresholdBinaryInv
              (percentile20 (grayOfCrop crop)) (grayOfCrop crop))) })
    ∧ (∀ (t : ℚ) (gray : List ℕ),
        invert255 (thresholdBinaryInv t gray)
          = gray.map (fun p => if (p : ℚ) ≤ t then 0 else 255))
    ∧ percentile20 [10, 0, 50, 20, 40, 30] = 10
    ∧ percentile20 [0, 10, 20, 30] = 6 := by
  refine ⟨?_, ?_, ?_, ?_⟩
  · intro cfg crop h
    unfold getOcrRequest at h ⊢
    by_cases hmem : cfg.generation ∈ [Generation.gen1, Generation.gen2, Generation.gen3, Generation.gen4]
    · rw [if_pos hmem]
      rfl
    · rw [if_neg hmem] at h
      simp at h
  · intro t gray
    unfold invert255 thresholdBinaryInv
    rw [List.map_map]
    congr 1
    funext p
    simp only [Function.comp_apply]
    by_cases hp : (p : ℚ) ≤ t
    · rw [if_neg (not_lt.mpr hp), if_pos hp]
    · rw [if_pos (not_le.mp hp), if_neg hp]
  · norm_num [percentile20, sortNat, insertSorted]
  · norm_num [percentile20, sortNat, insertSorted]

/-- Witness for C8: a Gen2 profile on a one-pixel crop takes the
percentile path and produces exactly the described request. -/
theorem percentile_threshold_pipeline_witness :
    getOcrRequest { generation := Generation.gen2, ocr_pattern := OcrPatternFamily.team }
        [PixelBGR.mk 0 0 0]
      = { preproc := PreprocessingMode.percentile_threshold
          mode := RecognitionMode.line
          image := OcrImage.mono (invert255 (thresholdBinaryInv
            (percentile20 (grayOfCrop [PixelBGR.mk 0 0 0]))
            (grayOfCrop [PixelBGR.mk 0 0 0]))) } :=
  percentile_threshold_pipeline.1
    { generation := Generation.gen2, ocr_pattern := OcrPatternFamily.team }
    [PixelBGR.mk 0 0 0] rfl

/-- Probe budget of the halving search: an interval of width at most
`2 ^ k` is refined with at most `k` probes. -/
theorem refineAux_length_le (m : ℕ → Bool) :
    ∀ (fuel k lo hi : ℕ), hi - lo ≤ 2 ^ k → (refineAux m fuel lo hi).2.length ≤ k := by
  intro fuel
  induction fuel with
  | zero =>
    intro k lo hi _
    show ([] : List ℕ).length ≤ k
    simp
  | succ fuel ih =>
    intro k lo hi hk
    rw [refineAux]
    split_ifs with h1 hm
    · simp
    · cases k with
      | zero =>
        exfalso
        simp only [pow_zero] at hk
        omega
      | succ k' =>
        have hp : (2 : ℕ) ^ (k' + 1) = 2 ^ k' * 2 := pow_succ 2 k'
        have hrec := ih k' ((lo + hi) / 2) hi (by omega)
        show ((lo + hi) / 2 :: (refineAux m fuel ((lo + hi) / 2) hi).2).length ≤ k' + 1
        rw [List.length_cons]
        omega
    · cases k with
      | zero =>
        exfalso
        simp only [pow_zero] at hk
        omega
      | succ k' =>
        have hp : (2 : ℕ) ^ (k' + 1) = 2 ^ k' * 2 := pow_succ 2 k'
        have hrec := ih k' lo ((lo + hi) / 2) (by omega)
        show ((lo + hi) / 2 :: (refineAux m fuel lo ((lo + hi) / 2)).2).length ≤ k' + 1
        rw [List.length_cons]
        omega

/-- Correctness of the halving search: when the match holds on the
frames below `b` and fails from `b` on, refinement returns exactly
`b`. -/
theorem refineAux_correct (m : ℕ → Bool) :
    ∀ (fuel lo hi b : ℕ), hi - lo ≤ fuel → lo < b → b ≤ hi →
      (∀ f, lo ≤ f → f < b → m f = true) →
      (∀ f, b ≤ f → f ≤ hi → m f = false) →
      (refineAux m fuel lo hi).1 = b := by
  intro fuel
  induction fuel with
  | zero =>
    intro lo hi b hf h1 h2 _ _
    show hi = b
    omega
  | succ fuel ih =>
    intro lo hi b hf h1 h2 hin hout
    rw [refineAux]
    split_ifs with hgap hm
    · show hi = b
      omega
    · have hmb : (lo + hi) / 2 < b := by
        by_contra hc
        push_neg at hc
        have := hout ((lo + hi) / 2) hc (by omega)
        rw [this] at hm
        cases hm
      exact ih ((lo + hi) / 2) hi b (by omega) hmb h2
        (fun f hf1 hf2 => hin f (by omega) hf2)
        (fun f hf1 hf2 => hout f hf1 hf2)
    · have hbm : b ≤ (lo + hi) / 2 := by
        by_contra hc
        push_neg at hc
        exact hm (hin ((lo + hi) / 2) (by omega) hc)
      exact ih lo ((lo + hi) / 2) b (by omega) h1 hbm
        (fun f hf1 hf2 => hin f hf1 hf2)
        (fun f hf1 hf2 => hout f hf1 (by omega))

/-- Every probe of the halving search lies strictly inside the open
interval being refined. -/
theorem refineAux_probes_mem (m : ℕ → Bool) :
    ∀ (fuel lo hi : ℕ), ∀ p ∈ (refineAux m fuel lo hi).2, lo < p ∧ p < hi := by
  intro fuel
  induction fuel with
  | zero =>
    intro lo hi p hp
    replace hp : p ∈ ([] : List ℕ) := hp
    cases hp
  | succ fuel ih =>
    intro lo hi p hp
    rw [refineAux] at hp
    split_ifs at hp with h1 hm
    · replace hp : p ∈ ([] : List ℕ) := hp
      cases hp
    · replace hp : p ∈ (lo + hi) / 2 :: (refineAux m fuel ((lo + hi) / 2) hi).2 := hp
      rcases List.mem_cons.mp hp with rfl | hp
      · omega
      · have := ih ((lo + hi) / 2) hi p hp
        omega
    · replace hp : p ∈ (lo + hi) / 2 :: (refineAux m fuel lo ((lo + hi) / 2)).2 := hp
      rcases List.mem_cons.mp hp with rfl | hp
      · omega
      · have := ih lo ((lo + hi) / 2) p hp
        omega

/-- C2: when SAMPLING has recorded a last matching frame `inside` and a
first non-matching frame `outside` at distance `jump`, and the match
transitions once at `b` on that interval, the REFINING binary search
performs at most `⌈log2 jump⌉` OCR probes, every probe lies in the open
interval between `inside` and `outside`, and the search terminates
returning exactly `b`, the first frame in the search direction at which
the trainer text match is absent. -/
theorem refining_phase_bound_and_correct (m : ℕ → Bool)
    (inside outside jump b : ℕ)
    (hjump : outside - inside = jump)
    (hb1 : inside < b) (hb2 : b ≤ outside)
    (hin : ∀ f, inside ≤ f → f < b → m f = true)
    (hout : ∀ f, b ≤ f → f ≤ outside → m f = false) :
    (refineBoundary m inside outside).2.length ≤ Nat.clog 2 jump
    ∧ (∀ p ∈ (refineBoundary m inside outside).2, inside < p ∧ p < outside)
    ∧ (refineBoundary m inside outside).1 = b := by
  have hle : jump ≤ 2 ^ Nat.clog 2 jump := Nat.le_pow_clog (by norm_num) jump
  refine ⟨?_, ?_, ?_⟩
  · exact refineAux_length_le m (outside - inside) (Nat.clog 2 jump) inside outside (by omega)
  · exact refineAux_probes_mem m (outside - inside) inside outside
  · exact refineAux_correct m (outside - inside) inside outside b (le_refl _) hb1 hb2 hin hout

/-- A concrete match function whose text span ends at frame 9. -/
def matchBelowTen (f : ℕ) : Bool := decide (f < 10)

/-- Witness for C2: refining the interval (8, 16) of width 8 over
`matchBelowTen` uses at most `⌈log2 8⌉ = 3` probes and returns frame 10,
the first frame without the match. -/
theorem refining_phase_bound_and_correct_witness :
    (refineBoundary matchBelowTen 8 16).2.length ≤ Nat.clog 2 8
    ∧ (refineBoundary matchBelowTen 8 16).1 = 10 :=
  ⟨(refining_phase_bound_and_correct matchBelowTen 8 16 8 10 rfl (by decide) (by decide)
      (fun f _ h2 => decide_eq_true h2)
      (fun f h1 _ => decide_eq_false (by omega))).1,
   (refining_phase_bound_and_correct matchBelowTen 8 16 8 10 rfl (by decide) (by decide)
      (fun f _ h2 => decide_eq_true h2)
      (fun f h1 _ => decide_eq_false (by omega))).2.2⟩

/-- A frame returned by `firstBW` was probed and classifies as black or
white. -/
theorem firstBW_spec (c : ℕ → FrameClass) (probes : List ℕ) (f : ℕ)
    (h : firstBW c probes = some f) : f ∈ probes ∧ c f ≠ FrameClass.neither := by
  unfold firstBW at h
  refine ⟨List.mem_of_find?_eq_some h, ?_⟩
  have := List.find?_some h
  simpa using this

/-- If some probed frame classifies as black or white then `firstBW`
finds one. -/
theorem firstBW_isSome (c : ℕ → FrameClass) (probes : List ℕ)
    (h : ∃ f ∈ probes, c f ≠ FrameClass.neither) :
    ∃ g, firstBW c probes = some g := by
  unfold firstBW
  obtain ⟨f, hmem, hf⟩ := h
  have hs : (probes.find? (fun f => c f ≠ FrameClass.neither)).isSome :=
    List.find?_isSome.mpr ⟨f, hmem, by simpa using hf⟩
  exact Option.isSome_iff_exists.mp hs

/-- C3: the tiered transition search never reports "not found" — if the
Phase 1 bounded window fails but the extended `2 × jump` window contains
a transition, Phase 2 returns it; if Phases 1 and 2 both fail and the
fine fallback sweep from the detection point contains a black-or-white
frame, the sweep produces the result (a frame classifying black or
white); and if every phase fails the cut point is clamped to the
recording end rather than reported missing. -/
theorem short_battle_fallback (c : ℕ → FrameClass) (t d jump recEnd : ℕ) :
    (∀ f : ℕ, firstBW c (probesPhase1 t jump) = none →
        firstBW c (probesPhase2 t jump) = some f →
        findTransitionOut c t d jump recEnd = f)
    ∧ (firstBW c (probesPhase1 t jump) = none →
        firstBW c (probesPhase2 t jump) = none →
        (∃ f ∈ probesFine d recEnd, c f ≠ FrameClass.neither) →
        c (findTransitionOut c t d jump recEnd) ≠ FrameClass.neither
        ∧ findTransitionOut c t d jump recEnd ∈ probesFine d recEnd)
    ∧ (firstBW c (probesPhase1 t jump) = none →
        firstBW c (probesPhase2 t jump) = none →
        firstBW c (probesFine d recEnd) = none →
        firstBW c (probesCoarse d recEnd) = none →
        findTransitionOut c t d jump recEnd = recEnd) := by
  refine ⟨?_, ?_, ?_⟩
  · intro f h1 h2
    unfold findTransitionOut
    rw [h1, h2]
  · intro h1 h2 hex
    obtain ⟨g, hg⟩ := firstBW_isSome c (probesFine d recEnd) hex
    have hspec := firstBW_spec c (probesFine d recEnd) g hg
    unfold findTransitionOut
    rw [h1, h2, hg]
    exact ⟨hspec.2, hspec.1⟩
  · intro h1 h2 h3 h4
    unfold findTransitionOut
    rw [h1, h2, h3, h4]

/-- A classifier with a single white frame at 25, outside the bounded
and extended windows of a boundary at frame 2 with jump 10, but on the
fine sweep grid of a detection at frame 0. -/
def cLateWhite (f : ℕ) : FrameClass :=
  if f = 25 then FrameClass.white else FrameClass.neither

set_option maxRecDepth 100000 in
/-- Witness for C3: a battle much shorter than the jump — Phases 1 and 2
find nothing, and the fallback fine sweep returns the white frame. -/
theorem short_battle_fallback_witness :
    cLateWhite (findTransitionOut cLateWhite 2 0 10 30) ≠ FrameClass.neither
    ∧ findTransitionOut cLateWhite 2 0 10 30 ∈ probesFine 0 30 :=
  (short_battle_fallback cLateWhite 2 0 10 30).2.1 (by decide) (by decide)
    ⟨25, by decide, by decide⟩

/-- The backward sampling walk, when it stops, stops at a matching frame
`i` at or below its start with the non-matching frame one jump below. -/
theorem sampleIn_spec (m : ℕ → Bool) (jump : ℕ) :
    ∀ (fuel cur i o : ℕ), m cur = true → sampleIn m jump fuel cur = some (i, o) →
      m i = true ∧ m o = false ∧ jump ≤ i ∧ o = i - jump ∧ i ≤ cur := by
  intro fuel
  induction fuel with
  | zero =>
    intro cur i o _ h
    simp [sampleIn] at h
  | succ fuel ih =>
    intro cur i o hcur h
    rw [sampleIn] at h
    split_ifs at h with hjc hmj
    · have := ih (cur - jump) i o hmj h
      exact ⟨this.1, this.2.1, this.2.2.1, this.2.2.2.1, by omega⟩
    · cases h
      refine ⟨hcur, ?_, hjc, rfl, le_refl _⟩
      simpa using hmj

/-- The forward sampling walk, when it stops, stops at a matching frame
`i` at or above its start with the non-matching frame one jump above. -/
theorem sampleOut_spec (m : ℕ → Bool) (jump : ℕ) :
    ∀ (fuel cur i o : ℕ), m cur = true → sampleOut m jump fuel cur = some (i, o) →
      m i = true ∧ m o = false ∧ o = i + jump ∧ cur ≤ i := by
  intro fuel
  induction fuel with
  | zero =>
    intro cur i o _ h
    simp [sampleOut] at h
  | succ fuel ih =>
    intro cur i o hcur h
    rw [sampleOut] at h
    split_ifs at h with hmj
    · have := ih (cur + jump) i o hmj h
      exact ⟨this.1, this.2.1, this.2.2.1, by omega⟩
    · cases h
      refine ⟨hcur, ?_, rfl, le_refl _⟩
      simpa using hmj

/-- The cut-in transition search never moves forward past the text
boundary it starts from. -/
theorem findTransitionIn_le (c : ℕ → FrameClass) (t jump : ℕ) :
    findTransitionIn c t jump ≤ t := by
  unfold findTransitionIn
  cases hf : firstBW c (probesBack t jump) with
  | none => exact Nat.zero_le t
  | some f =>
    have hmem := (firstBW_spec c _ f hf).1
    simp only [probesBack, List.mem_filter, List.mem_map, List.mem_range] at hmem
    obtain ⟨⟨k, _, rfl⟩, _⟩ := hmem
    show t - k ≤ t
    omega

/-- When no transition frame exists inside the text span `[s, e]`, every
outcome of the cut-out transition search lies strictly after `e`. -/
theorem findTransitionOut_gt (c : ℕ → FrameClass) (t d jump recEnd s e : ℕ)
    (hc : ∀ f, s ≤ f → f ≤ e → c f = FrameClass.neither)
    (hsd : s ≤ d) (het : e < t) (heE : e < recEnd) :
    e < findTransitionOut c t d jump recEnd := by
  unfold findTransitionOut
  cases h1 : firstBW c (probesPhase1 t jump) with
  | some f =>
    have hmem := (firstBW_spec c _ f h1).1
    simp only [probesPhase1, List.mem_map, List.mem_range] at hmem
    obtain ⟨k, _, rfl⟩ := hmem
    show e < t + k
    omega
  | none =>
  cases h2 : firstBW c (probesPhase2 t jump) with
  | some f =>
    have hmem := (firstBW_spec c _ f h2).1
    simp only [probesPhase2, List.mem_map, List.mem_range] at hmem
    obtain ⟨k, _, rfl⟩ := hmem
    show e < t + k
    omega
  | none =>
  cases h3 : firstBW c (probesFine d recEnd) with
  | some f =>
    have hspec := firstBW_spec c _ f h3
    have hmem := hspec.1
    simp only [probesFine, List.mem_filter, List.mem_map, List.mem_range] at hmem
    obtain ⟨⟨k, _, rfl⟩, _⟩ := hmem
    show e < d + 5 * k
    by_contra hcon
    push_neg at hcon
    exact hspec.2 (hc (d + 5 * k) (by omega) hcon)
  | none =>
  cases h4 : firstBW c (probesCoarse d recEnd) with
  | some f =>
    have hspec := firstBW_spec c _ f h4
    have hmem := hspec.1
    simp only [probesCoarse, List.mem_filter, List.mem_map, List.mem_range] at hmem
    obtain ⟨⟨k, _, rfl⟩, _⟩ := hmem
    show e < d + 10 * k
    by_contra hcon
    push_neg at hcon
    exact hspec.2 (hc (d + 10 * k) (by omega) hcon)
  | none =>
    exact heE

/-- C6 (amended): for every segment the engine produces from a detection
inside a text-visible span `[s, e]` none of whose frames is itself a
transition frame, the ordering `cut_in ≤ text_before ≤ detect <
text_after ≤ cut_out` holds.  Both changes from the original claim are
forced by the exhibited counterexample runs: `cut_in < text_before`
weakens to `≤` because the backward transition scan starts at the text
boundary frame itself, and the span must be free of transition frames
because the fallback cut-out sweep starts at the detection point inside
the span and otherwise returns a cut-out before the forward text
edge. -/
theorem segment_ordering (m : ℕ → Bool) (c : ℕ → FrameClass)
    (d jump recEnd fuel s e : ℕ) (seg : Segment)
    (hm : ∀ f, m f = true ↔ (s ≤ f ∧ f ≤ e))
    (hs : 1 ≤ s) (hsd : s ≤ d) (hde : d ≤ e) (heE : e < recEnd)
    (hc : ∀ f, s ≤ f → f ≤ e → c f = FrameClass.neither)
    (hrun : processBattleEngine m c d jump recEnd fuel = some seg) :
    seg.cut_in ≤ seg.text_before ∧ seg.text_before < seg.detect
    ∧ seg.detect < seg.text_after ∧ seg.text_after ≤ seg.cut_out := by
  have hmd : m d = true := (hm d).mpr ⟨hsd, hde⟩
  unfold processBattleEngine at hrun
  cases hin : sampleIn m jump fuel d with
  | none =>
    rw [hin] at hrun
    cases hrun
  | some prB =>
    obtain ⟨iB, oB⟩ := prB
    rw [hin] at hrun
    cases hout : sampleOut m jump fuel d with
    | none =>
      rw [hout] at hrun
      cases hrun
    | some prA =>
      obtain ⟨iA, oA⟩ := prA
      rw [hout] at hrun
      obtain ⟨hiB, hoB, hjB, hoBeq, hiBd⟩ := sampleIn_spec m jump fuel d iB oB hmd hin
      obtain ⟨hiA, hoA, hoAeq, hdiA⟩ := sampleOut_spec m jump fuel d iA oA hmd hout
      have hiBe : iB ≤ e := ((hm iB).mp hiB).2
      have hsiB : s ≤ iB := ((hm iB).mp hiB).1
      have hiAe : iA ≤ e := ((hm iA).mp hiA).2
      have hsiA : s ≤ iA := ((hm iA).mp hiA).1
      have hoBlt : oB < s := by
        by_contra hcon
        push_neg at hcon
        have : m oB = true := (hm oB).mpr ⟨hcon, by omega⟩
        rw [this] at hoB
        cases hoB
      have hoAgt : e < oA := by
        by_contra hcon
        push_neg at hcon
        have : m oA = true := (hm oA).mpr ⟨by omega, hcon⟩
        rw [this] at hoA
        cases hoA
      have hspan : (refineBoundary (fun f => !m f) oB iB).1 = s := by
        apply refineAux_correct (fun f => !m f) (iB - oB) oB iB s (le_refl _) hoBlt hsiB
        · intro f hf1 hf2
          have : m f = false := by
            cases hmf : m f with
            | false => rfl
            | true =>
              have := (hm f).mp hmf
              omega
          rw [this]
          rfl
        · intro f hf1 hf2
          have : m f = true := (hm f).mpr ⟨hf1, by omega⟩
          rw [this]
          rfl
      have hafter : (refineBoundary m iA oA).1 = e + 1 := by
        apply refineAux_correct m (oA - iA) iA oA (e + 1) (le_refl _) (by omega) (by omega)
        · intro f hf1 hf2
          exact (hm f).mpr ⟨by omega, by omega⟩
        · intro f hf1 hf2
          cases hmf : m f with
          | false => rfl
          | true =>
            exfalso
            have := (hm f).mp hmf
            omega
      cases hrun
      simp only [hspan, hafter]
      refine ⟨?_, ?_, ?_, ?_⟩
      · exact findTransitionIn_le c (s - 1) jump
      · omega
      · omega
      · have := findTransitionOut_gt c (e + 1) d jump recEnd s e hc hsd (by omega) heE
        omega

/-- A text span covering frames 5 through 9. -/
def mShortSpan (f : ℕ) : Bool := decide (5 ≤ f ∧ f ≤ 9)

/-- Black transition frames immediately bracketing that span, at frames
4 and 11 — the backward text edge itself is the black frame. -/
def cAtEdges (f : ℕ) : FrameClass :=
  if f = 4 ∨ f = 11 then FrameClass.black else FrameClass.neither

/-- A single black frame at frame 6 — the detection point, strictly
inside the text span — and no transition anywhere else. -/
def cInsideSpan (f : ℕ) : FrameClass :=
  if f = 6 then FrameClass.black else FrameClass.neither

set_option maxRecDepth 100000 in
/-- Counterexample for C6 as stated, exhibiting two concrete engine runs
that each falsify the claimed invariant.  First run: the cut-in
transition frame coincides with the backward text edge (both are frame
4) because the backward transition scan starts at the text boundary
frame itself, so `cut_in_frame < text_edge_frame_before` fails.  Second
run: a black frame at the detection point, strictly inside the text
span, is found by the fallback sweep (which starts at the detection
point) after the bounded and extended cut-out windows fail, so the
engine returns `cut_out_frame = 6` strictly before
`text_edge_frame_after = 10` and `text_edge_frame_after ≤ cut_out_frame`
fails — a transition frame inside the text-visible span breaks the
ordering outright. -/
theorem segment_ordering_counterexample :
    (processBattleEngine mShortSpan cAtEdges 6 2 30 20
      = some { cut_in := 4, text_before := 4, detect := 6, text_after := 10, cut_out := 11 }
    ∧ ¬ ((4 : ℕ) < 4))
    ∧ (processBattleEngine mShortSpan cInsideSpan 6 2 30 20
      = some { cut_in := 0, text_before := 4, detect := 6, text_after := 10, cut_out := 6 }
    ∧ ¬ ((10 : ℕ) ≤ 6)) :=
  ⟨⟨by decide, by decide⟩, ⟨by decide, by decide⟩⟩

/-- Witness for C6 (amended): the amended ordering applied to the same
concrete run. -/
theorem segment_ordering_witness :
    (Segment.mk 4 4 6 10 11).cut_in ≤ (Segment.mk 4 4 6 10 11).text_before
    ∧ (Segment.mk 4 4 6 10 11).text_before < (Segment.mk 4 4 6 10 11).detect
    ∧ (Segment.mk 4 4 6 10 11).detect < (Segment.mk 4 4 6 10 11).text_after
    ∧ (Segment.mk 4 4 6 10 11).text_after ≤ (Segment.mk 4 4 6 10 11).cut_out :=
  segment_ordering mShortSpan cAtEdges 6 2 30 20 5 9 (Segment.mk 4 4 6 10 11)
    (fun f => by simp [mShortSpan])
    (by decide) (by decide) (by decide) (by decide)
    (fun f h1 h2 => by
      unfold cAtEdges
      rw [if_neg]
      omega)
    (by decide)

end FuryCutter
